import Mathlib

/-!
Verification of the uai agent framework (src/uai.ts) against its
natural-language specification.

The development shallowly embeds the pure core of the program:
the markup codec (objToXml / xmlToObj), the type coercion helper
(convertValue), the schema-driven fallback synthesizer
(createFallbackResponse / createFallbackForField), the response-assembly
cascade of Agent.generateResponse, the selection-reply post-processing of
Agent.selectRelevantServers / selectRelevantTools, and the tool stage of
Agent.run with its external calls abstracted as oracle functions.

Modelling conventions:
* JS strings are Lean String / List Char.  String.length counts code
  points where JS counts UTF-16 units; the JS whitespace class and
  toLowerCase are modelled on their ASCII fragment.  No claim below
  depends on non-ASCII text.
* JS numbers produced by the decoder and the coercion helper are carried
  as their source text (constructor XVal.num); JS numeric normalisation
  (Number("007") = 7) is not modelled, and no claim compares numeric
  values.
* Property access is modelled on the semantic tree: reading a key from a
  non-object value yields none (JS exotic string properties such as
  "length" or numeric indices are not modelled; no schema in the claims
  uses such field names).
* The recursive reply parser is implemented with an explicit fuel
  parameter so that every definition is executable by kernel reduction;
  the fuel (input length + 1) is proved sufficient for every input
  (decode totality).
-/

/-! ### Basic character and string helpers (JS semantics, ASCII fragment) -/

/-- The JS whitespace class used by String.prototype.trim and the regex
class backslash-s, restricted to its ASCII members. -/
def isJsSpace (c : Char) : Bool :=
  c = ' ' || c = '\t' || c = '\n' || c = '\r' || c = '\x0b' || c = '\x0c'

/-- JS String.prototype.trim on a character list. -/
def trimChars (l : List Char) : List Char :=
  ((l.dropWhile isJsSpace).reverse.dropWhile isJsSpace).reverse

/-- JS String.prototype.trim. -/
def jsTrim (s : String) : String :=
  String.mk (trimChars s.data)

/-- JS String.prototype.toLowerCase, ASCII fragment. -/
def jsToLower (s : String) : String :=
  String.mk (s.data.map Char.toLower)

/-- First index (if any) at which the pattern occurs as a contiguous
sublist: the search behind JS String.prototype.includes and the lazy
content scan of the decode regex. -/
def findSub (pat : List Char) : List Char → Option Nat
  | [] => if pat.isPrefixOf ([] : List Char) then some 0 else none
  | c :: tl =>
    if pat.isPrefixOf (c :: tl) then some 0
    else (findSub pat tl).map (fun n => n + 1)

/-- JS String.prototype.includes. -/
def containsSub (haystack needle : String) : Bool :=
  (findSub needle.data haystack.data).isSome

/-! ### The semantic value tree -/

/-- A JS value as it appears in this program: decoded trees hold
strings, numbers (as source text), booleans and nested objects; the
fallback synthesizer additionally produces empty arrays, and validation
distinguishes null. -/
inductive XVal where
  | null
  | str (s : String)
  | num (s : String)
  | bool (b : Bool)
  | obj (entries : List (String × XVal))
  | arr (elems : List XVal)

/-- Key lookup in an object's entry list (JS property read on an
object literal; first binding wins, and the decoder keeps keys unique). -/
def lookupEntry : List (String × XVal) → String → Option XVal
  | [], _ => none
  | (k, v) :: rest, key => if k = key then some v else lookupEntry rest key

/-- JS assignment result[key] = v: updates an existing binding in place
(keeping its position, as JS objects do), otherwise appends. -/
def setProp : List (String × XVal) → String → XVal → List (String × XVal)
  | [], key, v => [(key, v)]
  | (k, w) :: rest, key, v =>
    if k = key then (key, v) :: rest else (k, w) :: setProp rest key v

/-- JS property access modelled on the tree: object lookup, none on
non-objects. -/
def getProp : XVal → String → Option XVal
  | .obj m, key => lookupEntry m key
  | _, _ => none

/-! ### Decode: xmlToObj (src/uai.ts lines 139-190)

The regex scan of the source,
  tagRegex = <([^>\s/]+)(?:[^>]*)>(.*?)</backref1>  with flags g s,
is embedded as an explicit matcher.  At a candidate start position the
engine consumes '<', a maximal nonempty run of name characters
(anything but '>', '/' and whitespace, tried longest first with
backtracking), then everything up to the next '>' (the [^>]* part,
which is forced to end at the first '>'), then lazily the shortest
content followed by the literal closing tag of the captured name.
exec with the g flag repeatedly finds the leftmost match after the
previous one. -/

/-- Characters admitted by the tag-name capture group [^>\s/]+. -/
def isNameChar (c : Char) : Bool :=
  !(c = '>') && !(c = '/') && !(isJsSpace c)

/-- Backtracking over the captured tag-name length (longest first, as
the greedy group does): length n is the number of candidate lengths
still to try.  l2 is the text after the opening '>'.  On success
returns (captured name, lazy content, remaining text). -/
def tryTags (l2 run1 : List Char) : Nat → Option (List Char × List Char × List Char)
  | 0 => none
  | n + 1 =>
    let tag := run1.take (n + 1)
    let closing := '<' :: '/' :: (tag ++ ['>'])
    match findSub closing l2 with
    | some p => some (tag, l2.take p, l2.drop (p + closing.length))
    | none => tryTags l2 run1 n

/-- One attempt of the tag regex anchored at the head of the list. -/
def matchAt : List Char → Option (List Char × List Char × List Char)
  | [] => none
  | ch :: l1 =>
    if ch = '<' then
      let run1 := l1.takeWhile isNameChar
      if run1.isEmpty then none
      else
        let pre := l1.takeWhile (fun c => !(c = '>'))
        if pre.length = l1.length then none
        else
          let l2 := l1.drop (pre.length + 1)
          tryTags l2 run1 run1.length
    else none

/-- Leftmost match of the tag regex: try each start position in order. -/
def findMatch : List Char → Option (List Char × List Char × List Char)
  | [] => none
  | c :: cs =>
    match matchAt (c :: cs) with
    | some r => some r
    | none => findMatch cs

/-- The exec-loop of the source: all successive non-overlapping matches,
each search resuming after the previous match.  Every match consumes at
least one character, so fuel (input length + 1) never truncates. -/
def collectMatchesF : Nat → List Char → List (List Char × List Char)
  | 0, _ => []
  | f + 1, l =>
    match findMatch l with
    | none => []
    | some (t, c, rest) => (t, c) :: collectMatchesF f rest

/-- The decimal pattern of the source, caret backslash-d+(backslash-d+)? dollar:
digits, optionally a dot followed by at least one digit. -/
def isDecimalNumeral (l : List Char) : Bool :=
  let ds := l.takeWhile (fun c => c.isDigit)
  let r := l.drop ds.length
  !ds.isEmpty &&
    (r.isEmpty ||
      (match r with
       | '.' :: r2 => !r2.isEmpty && r2.all (fun c => c.isDigit)
       | _ => false))

/-- Scalar conversion of a trimmed tag content (source lines 167-176):
exact true/false become booleans, plain decimals become numbers,
everything else stays the trimmed text. -/
def scalarOf (ct : List Char) : XVal :=
  let ts := String.mk ct
  if ts = "true" then .bool true
  else if ts = "false" then .bool false
  else if isDecimalNumeral ct then .num ts
  else .str ts

/-- The body of the exec-while-loop: each match's content is parsed
recursively when it still contains '<' (with the untrimmed content, as
the source does), otherwise converted as a scalar; results accumulate
through result[tagName] assignments.  g is the recursive parser at the
remaining fuel; none propagates fuel exhaustion. -/
def buildEntriesWith (g : List Char → Option XVal) :
    List (List Char × List Char) → List (String × XVal) →
    Option (List (String × XVal))
  | [], acc => some acc
  | (t, c) :: rest, acc =>
    if (trimChars c).any (fun ch => ch = '<') then
      match g c with
      | none => none
      | some v => buildEntriesWith g rest (setProp acc (String.mk t) v)
    else
      buildEntriesWith g rest (setProp acc (String.mk t) (scalarOf (trimChars c)))

/-- parseElement of the source, with fuel: trim; with no '<' at all
return the trimmed text; otherwise scan for matches; with zero matches
the source logs a warning and returns the (trimmed) content as-is;
otherwise build the object from the matches. -/
def parseElementF : Nat → List Char → Option XVal
  | 0, _ => none
  | f + 1, l =>
    let lt := trimChars l
    if (lt.any (fun c => c = '<')) = false then
      some (.str (String.mk lt))
    else
      match collectMatchesF (lt.length + 1) lt with
      | [] => some (.str (String.mk lt))
      | m :: ms => (buildEntriesWith (parseElementF f) (m :: ms) []).map XVal.obj

/-- xmlToObj with its fuel made explicit; the fuel is proved sufficient
below (decode totality). -/
def xmlToObjOpt (s : String) : Option XVal :=
  parseElementF (s.data.length + 1) s.data

/-- xmlToObj of the source (lines 139-190). -/
def xmlToObj (s : String) : XVal :=
  (xmlToObjOpt s).getD (.str "")

/-! ### The schema capability (zod as used by the program)

Field schemas as the program inspects them: the closed FieldKind set of
the spec (string, number, boolean, enum, array, object) plus the
optional/nullable wrappers the source unwraps.  Object field lists are a
dedicated inductive so that all recursions stay structural (hence
kernel-executable). -/

mutual
inductive FieldSchema where
  | string
  | number
  | boolean
  | enumeration (values : List String)
  | array (elem : FieldSchema)
  | object (fields : SchemaFields)
  | optional (inner : FieldSchema)
  | nullable (inner : FieldSchema)
inductive SchemaFields where
  | nil
  | cons (name : String) (schema : FieldSchema) (rest : SchemaFields)
end

/-- getSchemaTypeName of the source (lines 221-226): the zod _def
typeName, resolved through optional/nullable wrappers. -/
def getSchemaTypeName : FieldSchema → String
  | .string => "ZodString"
  | .number => "ZodNumber"
  | .boolean => "ZodBoolean"
  | .enumeration _ => "ZodEnum"
  | .array _ => "ZodArray"
  | .object _ => "ZodObject"
  | .optional i => getSchemaTypeName i
  | .nullable i => getSchemaTypeName i

/-- The unwrap while-loop at the head of convertValue (lines 197-200). -/
def resolveBase : FieldSchema → FieldSchema
  | .optional i => resolveBase i
  | .nullable i => resolveBase i
  | s => s

/-- Whether zod accepts the field being absent from the object
(undefined): ZodOptional does, ZodNullable defers to its inner schema,
nothing else does. -/
def allowsMissing : FieldSchema → Bool
  | .optional _ => true
  | .nullable i => allowsMissing i
  | _ => false

mutual
/-- zod validation (schema.parse succeeding) of a candidate value, for
the schema fragment the program uses: type tests for scalars, membership
for enums, element-wise check for arrays, and per-declared-field checks
for objects (missing fields allowed only when optional; null accepted
only under nullable; unknown keys stripped, hence ignored). -/
def validateSchema : FieldSchema → XVal → Bool
  | .string, .str _ => true
  | .string, _ => false
  | .number, .num _ => true
  | .number, _ => false
  | .boolean, .bool _ => true
  | .boolean, _ => false
  | .enumeration vs, .str s => vs.contains s
  | .enumeration _, _ => false
  | .array e, .arr xs => xs.all (fun x => validateSchema e x)
  | .array _, _ => false
  | .object fs, .obj m => validateFields fs m
  | .object _, _ => false
  | .optional i, v => validateSchema i v
  | .nullable _, .null => true
  | .nullable i, v => validateSchema i v
/-- The per-declared-field part of zod object validation. -/
def validateFields : SchemaFields → List (String × XVal) → Bool
  | .nil, _ => true
  | .cons k s rest, m =>
    (match lookupEntry m k with
     | some v => validateSchema s v
     | none => allowsMissing s) && validateFields rest m
end

/-! ### convertValue (src/uai.ts lines 193-219) -/

/-- The character filter of the ZodNumber branch:
value.replace of everything outside digits, dot, minus with nothing. -/
def stripToNumberChars (s : String) : String :=
  String.mk (s.data.filter (fun c => c.isDigit || c = '.' || c = '-'))

/-- Whether JS Number(s) is not NaN, for strings over the post-strip
alphabet (digits, dot, minus): the empty string parses (to 0), otherwise
an optional leading minus followed by digits with an optional fractional
part, or a fractional part alone. -/
def jsParsesAsNumber (s : String) : Bool :=
  match s.data with
  | [] => true
  | l =>
    let body := match l with
      | '-' :: rest => rest
      | _ => l
    let ds := body.takeWhile (fun c => c.isDigit)
    let r := body.drop ds.length
    match r with
    | [] => !ds.isEmpty
    | '.' :: r2 => (!ds.isEmpty || !r2.isEmpty) && r2.all (fun c => c.isDigit)
    | _ => false

/-- convertValue of the source: with no schema the raw text; otherwise
unwrap optional/nullable and switch on the base type name.  Numbers are
stripped to their numeric characters and parsed, keeping the original
text when the parse is NaN (the only throw site, caught locally);
booleans compare case-insensitively with "true"; strings and every other
kind are trimmed. -/
def convertValue (value : String) (fieldSchema : Option FieldSchema) : XVal :=
  match fieldSchema with
  | none => .str value
  | some fs =>
    let baseSchema := resolveBase fs
    if getSchemaTypeName baseSchema = "ZodNumber" then
      let cleanNum := stripToNumberChars value
      if jsParsesAsNumber cleanNum then .num cleanNum else .str value
    else if getSchemaTypeName baseSchema = "ZodBoolean" then
      .bool (jsToLower value = "true")
    else
      .str (jsTrim value)

/-- The conversion rule as the specification states it (spec section
4.2), written against the resolved FieldKind; compared with the source's
convertValue in the C7 theorem. -/
def convertValueSpec (value : String) (fs : FieldSchema) : XVal :=
  match resolveBase fs with
  | .number =>
    let clean := stripToNumberChars value
    if jsParsesAsNumber clean then .num clean else .str value
  | .boolean => .bool (jsToLower value = "true")
  | _ => .str (jsTrim value)

/-! ### FallbackSynthesizer: createFallbackResponse (lines 462-492) and
createFallbackForField (lines 724-748) -/

/-- The per-field value of Agent.createFallbackResponse, built from the
output field's name and kind and the JSON-stringified input (modelled as
the opaque text inputStr, which the source only splices into a
sentence). -/
def fallbackFieldValue (key : String) (schema : FieldSchema) (inputStr : String) : XVal :=
  let tn := getSchemaTypeName schema
  if tn = "ZodString" then
    if containsSub (jsToLower key) "response" then
      .str ("I understand your request about: " ++ inputStr ++
        ". I'm working on improving my response format.")
    else if containsSub (jsToLower key) "thinking" || containsSub (jsToLower key) "comment" then
      .str "Processing your request and generating appropriate response."
    else .str "Generated content"
  else if tn = "ZodArray" then .arr []
  else if tn = "ZodObject" then .obj []
  else if tn = "ZodNumber" then .num "0"
  else if tn = "ZodBoolean" then .bool false
  else .str "Fallback value"

/-- The loop of Agent.createFallbackResponse over the output shape. -/
def createFallbackFields : SchemaFields → String → List (String × XVal)
  | .nil, _ => []
  | .cons k s rest, inputStr =>
    (k, fallbackFieldValue k s inputStr) :: createFallbackFields rest inputStr

/-- Agent.createFallbackResponse: the wholesale fallback object built
from the output schema and the input alone. -/
def createFallbackResponse (shape : SchemaFields) (inputStr : String) : XVal :=
  .obj (createFallbackFields shape inputStr)

/-- Values of an object in declaration order (JS Object.values); empty
for non-objects (a primitive's own enumerable properties; JS string
exotic index properties are single characters, which the only use
site filters out by its length test). -/
def objValues : XVal → List XVal
  | .obj m => m.map Prod.snd
  | _ => []

/-- Object.values(parsed).find of the source: the first string value
longer than 10 characters. -/
def firstLongString : List XVal → Option String
  | [] => none
  | .str s :: rest => if s.length > 10 then some s else firstLongString rest
  | _ :: rest => firstLongString rest

/-- Agent.createFallbackForField: the per-field fallback used during
response assembly, from the field name and kind, the decoded tree and
the raw completion text. -/
def createFallbackForField (key : String) (schema : FieldSchema)
    (parsed : XVal) (response : String) : XVal :=
  let tn := getSchemaTypeName schema
  if tn = "ZodString" then
    if containsSub (jsToLower key) "response" || containsSub (jsToLower key) "message" then
      match firstLongString (objValues parsed) with
      | some s => .str s
      | none =>
        if response.take 200 = "" then .str "Response generated"
        else .str (response.take 200)
    else if containsSub (jsToLower key) "thinking" || containsSub (jsToLower key) "comment" then
      .str "Processing your request and generating appropriate response."
    else .str "Generated content"
  else if tn = "ZodArray" then .arr []
  else if tn = "ZodObject" then .obj []
  else if tn = "ZodNumber" then .num "0"
  else if tn = "ZodBoolean" then .bool false
  else .str "Fallback value"

/-! ### Response assembly: Agent.generateResponse (lines 693-720) -/

/-- Field lookup in an output shape (zod object shapes have unique
keys; first binding wins). -/
def lookupFields : SchemaFields → String → Option FieldSchema
  | .nil, _ => none
  | .cons k s rest, key => if k = key then some s else lookupFields rest key

/-- The first top-level value of the decoded tree
(parsed[Object.keys(parsed)[0]]); none for non-objects and the empty
object. -/
def firstVal : XVal → Option XVal
  | .obj ((_, v) :: _) => some v
  | _ => none

/-- The per-field if-chain of Agent.generateResponse: direct key, then
the key under a truthy object-typed response property, then the key
under the (truthy, object-typed) first top-level value, then the
per-field fallback. -/
def extractFieldValue (key : String) (schema : FieldSchema)
    (parsed : XVal) (response : String) : XVal :=
  match getProp parsed key with
  | some v => v
  | none =>
    let underResp : Option XVal :=
      match getProp parsed "response" with
      | some (.obj m) => lookupEntry m key
      | _ => none
    match underResp with
    | some v => v
    | none =>
      match firstVal parsed with
      | some (.obj m) =>
        match lookupEntry m key with
        | some v => v
        | none => createFallbackForField key schema parsed response
      | _ => createFallbackForField key schema parsed response

/-- The assembly loop of Agent.generateResponse: one entry per declared
output field, in declaration order. -/
def assembleResponse : SchemaFields → XVal → String → List (String × XVal)
  | .nil, _, _ => []
  | .cons key schema rest, parsed, response =>
    (key, extractFieldValue key schema parsed response) ::
      assembleResponse rest parsed response

/-- The cascading lookup exactly as the claim states it: (a) direct key
match in the decoded tree; (b) the key one level under a literal
response wrapper; (c) the key one level under the first top-level key;
(d) the per-field fallback synthesizer.  Compared with the source's
if-chain in the C5 theorem. -/
def cascadeLookupSpec (key : String) (schema : FieldSchema)
    (parsed : XVal) (response : String) : XVal :=
  let stageA := getProp parsed key
  let stageB : Option XVal :=
    match getProp parsed "response" with
    | some (.obj m) => lookupEntry m key
    | _ => none
  let stageC : Option XVal :=
    match firstVal parsed with
    | some (.obj m) => lookupEntry m key
    | _ => none
  match stageA.orElse (fun _ => stageB.orElse (fun _ => stageC)) with
  | some v => v
  | none => createFallbackForField key schema parsed response

/-! ### Encode: objToXml (src/uai.ts lines 99-137) -/

mutual
/-- A JS value fed to the encoder: null and undefined (distinguished
because String() and typeof treat them differently), scalars carried as
their String() text, objects and arrays.  Dedicated list inductives keep
the recursion structural. -/
inductive EVal where
  | vNull
  | vUndef
  | vStr (s : String)
  | vObj (entries : EEntries)
  | vArr (elems : EList)
inductive EEntries where
  | nil
  | cons (key : String) (v : EVal) (rest : EEntries)
inductive EList where
  | nil
  | cons (v : EVal) (rest : EList)
end

/-- The first replace of sanitizeTagName: every character outside
[A-Za-z0-9_] becomes an underscore. -/
def mapTagChars (name : String) : String :=
  String.mk (name.data.map (fun c =>
    if c.isAlpha || c.isDigit || c = '_' then c else '_'))

/-- sanitizeTagName of the source (lines 100-102): replace every
character outside [A-Za-z0-9_] with an underscore, then, if the first
character of the result is not a letter, splice the literal prefix tag_
in front of it. -/
def sanitizeTagName (name : String) : String :=
  match (mapTagChars name).data with
  | [] => mapTagChars name
  | c :: _ => if c.isAlpha then mapTagChars name else "tag_" ++ mapTagChars name

/-- wrapTag of the source (lines 104-107). -/
def wrapTag (tag content : String) : String :=
  "<" ++ sanitizeTagName tag ++ ">" ++ content ++ "</" ++ sanitizeTagName tag ++ ">"

/-- JS truthiness defaulting for a string parameter (parentKey || d):
undefined and the empty string both fall back to the default. -/
def orDefault (pk : Option String) (d : String) : String :=
  match pk with
  | some s => if s = "" then d else s
  | none => d

/-- Entry filter of the object branch: values that are neither
undefined nor null survive. -/
def isNullish : EVal → Bool
  | .vNull => true
  | .vUndef => true
  | _ => false

/-- The Object.entries(...).filter of the source. -/
def dropNullEntries : EEntries → EEntries
  | .nil => .nil
  | .cons k v rest =>
    if isNullish v then dropNullEntries rest else .cons k v (dropNullEntries rest)

/-- Emptiness test on entry lists. -/
def isNilEntries : EEntries → Bool
  | .nil => true
  | .cons _ _ _ => false

/-- JS typeof v === 'object' (true for objects, arrays and null). -/
def isTypeofObject : EVal → Bool
  | .vObj _ => true
  | .vArr _ => true
  | .vNull => true
  | _ => false

/-- JS String(v) for the values the encoder stringifies. -/
def jsStringOf : EVal → String
  | .vStr s => s
  | .vNull => "null"
  | .vUndef => "undefined"
  | .vObj _ => "[object Object]"
  | .vArr _ => ""

mutual
/-- objToXml of the source.  Arrays wrap item tags under the parent key
with the nullish-coalescing default "array"; objects filter out nullish
entries, encode as a bare empty tag when nothing survives, and otherwise
wrap the concatenated entries only when a (truthy) parent key exists;
everything else is a scalar wrapped under the parent key or "value". -/
def objToXml : EVal → Option String → String
  | .vArr xs, pk => wrapTag (pk.getD "array") (encodeItems xs)
  | .vObj es, pk =>
    if isNilEntries (dropNullEntries es) then wrapTag (orDefault pk "empty") ""
    else
      let content := encodeEntries es
      match pk with
      | some s => if s = "" then content else wrapTag s content
      | none => content
  | .vNull, pk => wrapTag (orDefault pk "value") "null"
  | .vUndef, pk => wrapTag (orDefault pk "value") "undefined"
  | .vStr s, pk => wrapTag (orDefault pk "value") s
/-- The array branch: each element under a literal item tag; elements of
typeof object (objects, arrays and null) re-enter objToXml without a
parent key, everything else is String()-ed. -/
def encodeItems : EList → String
  | .nil => ""
  | .cons v rest =>
    wrapTag "item" (if isTypeofObject v then objToXml v none else jsStringOf v)
      ++ encodeItems rest
/-- The object-entry loop over the filtered entries (the skip of nullish
values here is the filter of the source, fused into the loop so that the
recursion stays structural): values of typeof object re-enter objToXml
keyed by their entry key (and get sanitized tags through wrapTag), while
scalar values are emitted with the raw, unsanitized key spliced directly
into the tag text (source line 129). -/
def encodeEntries : EEntries → String
  | .nil => ""
  | .cons k v rest =>
    (if isNullish v then ""
     else if isTypeofObject v then objToXml v (some k)
     else "<" ++ k ++ ">" ++ jsStringOf v ++ "</" ++ k ++ ">")
      ++ encodeEntries rest
end

/-! ### Selection-reply post-processing:
Agent.selectRelevantServers (lines 529-547) and
Agent.selectRelevantTools (lines 584-602)

Both parse the completion reply with xmlToObj, read
parsed.outer?.inner with a || [] default, and filter the candidate list.
xmlToObj and the optional-chained lookup are total, so the catch
branches of the source (all servers, first tool) can only be reached by
a genuine runtime exception, never by an unparsable reply. -/

/-- An MCP server descriptor. -/
structure MCPServerM where
  name : String
  description : String
  url : String

/-- An MCP tool descriptor (its inputSchema is irrelevant here). -/
structure MCPToolM where
  name : String
  description : String

/-- JS falsiness of a decoded value ('' , 0, false, null are falsy;
every object and array is truthy).  A decoded numeral is zero exactly
when all its digits are 0. -/
def xvalFalsy : XVal → Bool
  | .str s => s = ""
  | .num s => s.data.all (fun c => c = '0' || c = '.')
  | .bool b => !b
  | .null => true
  | .obj _ => false
  | .arr _ => false

/-- parsed.outerKey?.innerKey || [] of the source: none stands for the
defaulted empty list (an absent or falsy lookup). -/
def selectionNames (reply : String) (outerKey innerKey : String) : Option XVal :=
  match getProp (xmlToObj reply) outerKey with
  | none => none
  | some v =>
    match getProp v innerKey with
    | none => none
    | some w => if xvalFalsy w then none else some w

/-- Strict equality of a decoded value with a candidate name
(serverNames === server.name): true only for the identical string. -/
def strictEqName : XVal → String → Bool
  | .str s, n => s = n
  | _, _ => false

/-- The filter step of Agent.selectRelevantServers: with the defaulted
empty list, Array.isArray([]) holds and [].includes never does, so no
candidate survives; with a non-array decoded value the filter keeps the
candidates whose name is strictly equal to it. -/
def selectRelevantServers (reply : String) (servers : List MCPServerM) :
    List MCPServerM :=
  match selectionNames reply "relevant_servers" "server_names" with
  | none => servers.filter (fun _ => false)
  | some v => servers.filter (fun sv => strictEqName v sv.name)

/-- The filter step of Agent.selectRelevantTools, same shape with the
selected_tools / tool_names keys. -/
def selectRelevantTools (reply : String) (tools : List MCPToolM) :
    List MCPToolM :=
  match selectionNames reply "selected_tools" "tool_names" with
  | none => tools.filter (fun _ => false)
  | some v => tools.filter (fun t => strictEqName v t.name)

/-! ### The tool stage of Agent.run (lines 391-428) with
discoverTools (lines 311-321)

External effects are abstracted as oracle functions: D (tool discovery
per server, which the source wraps in try/catch and in a non-ok check,
both yielding an empty list), S (the tool-selection result per server),
G (parameter generation per tool) and I (tool invocation).  A failing G
or I corresponds to the per-tool try/catch of Agent.run. -/

/-- discoverTools: a failed discovery degrades to the empty tool list. -/
def discoverToolsM (D : MCPServerM → Except String (List MCPToolM))
    (s : MCPServerM) : List MCPToolM :=
  match D s with
  | .ok ts => ts
  | .error _ => []

/-- The per-tool loop: a parameter-generation or invocation failure is
caught and the tool is skipped; a success stores the result under
server.tool via JS assignment. -/
def invokeToolsFold (G : MCPServerM → MCPToolM → Except String XVal)
    (I : MCPServerM → MCPToolM → XVal → Except String XVal)
    (server : MCPServerM) (acc : List (String × XVal)) :
    List MCPToolM → List (String × XVal)
  | [] => acc
  | t :: rest =>
    match G server t with
    | .error _ => invokeToolsFold G I server acc rest
    | .ok params =>
      match I server t params with
      | .error _ => invokeToolsFold G I server acc rest
      | .ok r =>
        invokeToolsFold G I server
          (setProp acc (server.name ++ "." ++ t.name) r) rest

/-- The per-server body of the discovery/invocation loop: discover (with
degradation), skip the server entirely when no tools were discovered,
otherwise select tools and run the per-tool loop. -/
def processServer (D : MCPServerM → Except String (List MCPToolM))
    (S : MCPServerM → List MCPToolM → List MCPToolM)
    (G : MCPServerM → MCPToolM → Except String XVal)
    (I : MCPServerM → MCPToolM → XVal → Except String XVal)
    (acc : List (String × XVal)) (s : MCPServerM) : List (String × XVal) :=
  let tools := discoverToolsM D s
  if tools.isEmpty then acc
  else invokeToolsFold G I s acc (S s tools)

/-- The whole tool stage: the toolResults mapping accumulated over the
selected servers in order. -/
def runToolStage (servers : List MCPServerM)
    (D : MCPServerM → Except String (List MCPToolM))
    (S : MCPServerM → List MCPToolM → List MCPToolM)
    (G : MCPServerM → MCPToolM → Except String XVal)
    (I : MCPServerM → MCPToolM → XVal → Except String XVal) :
    List (String × XVal) :=
  servers.foldl (processServer D S G I) []

/-! ### Agent construction (src/uai.ts lines 356-358) -/

/-- The agent configuration as far as construction is concerned. -/
structure AgentConfigM where
  llm : String
  inputFormat : SchemaFields
  outputFormat : SchemaFields
  servers : List MCPServerM := []
  systemPrompt : Option String := none

/-- A constructed agent. -/
structure AgentM where
  config : AgentConfigM

/-- The Agent constructor of the source snapshot: it stores the
configuration and performs no schema inspection whatsoever (it cannot
fail). -/
def constructAgent (config : AgentConfigM) : AgentM :=
  { config := config }

mutual
/-- Modelled from the spec: the construction-time walk of the output
schema (spec section 4.6), whose implementation is not among the source
snapshots (only its tests are, in src/unnamed/part_001) — the dotted
path segments of the first field, in declaration order and at any
depth, whose kind resolves to array. -/
def arrayPathIn : FieldSchema → Option (List String)
  | .array _ => some []
  | .object fs => arrayPathFields fs
  | .optional i => arrayPathIn i
  | .nullable i => arrayPathIn i
  | _ => none
/-- Modelled from the spec: the declaration-order search over an object
schema's fields for the first array-kinded field. -/
def arrayPathFields : SchemaFields → Option (List String)
  | .nil => none
  | .cons k s rest =>
    match arrayPathIn s with
    | some p => some (k :: p)
    | none => arrayPathFields rest
end

/-- Modelled from the spec: the dotted path (parent.child) reported when
construction rejects an output schema containing an array field. -/
def findArrayPath (fs : SchemaFields) : Option String :=
  (arrayPathFields fs).map (fun segs => String.intercalate "." segs)

/-! ### Auxiliary predicates and fixtures used by the theorems -/

mutual
/-- No field of this schema, at any depth, resolves to array kind. -/
def arrayFree : FieldSchema → Bool
  | .array _ => false
  | .object fs => arrayFreeFields fs
  | .optional i => arrayFree i
  | .nullable i => arrayFree i
  | _ => true
/-- arrayFree over an object schema's field list. -/
def arrayFreeFields : SchemaFields → Bool
  | .nil => true
  | .cons _ s rest => arrayFree s && arrayFreeFields rest
end

/-- Whether the key occurs in the shape. -/
def keyMem (k : String) : SchemaFields → Bool
  | .nil => false
  | .cons k' _ rest => k' = k || keyMem k rest

/-- Distinctness of the field names of a shape (automatic for a zod
object shape, whose fields are JS object properties). -/
def nodupKeys : SchemaFields → Bool
  | .nil => true
  | .cons k _ rest => !(keyMem k rest) && nodupKeys rest

/-- The field's kind resolves to string, number or boolean. -/
def primKind (s : FieldSchema) : Bool :=
  getSchemaTypeName s = "ZodString" || getSchemaTypeName s = "ZodNumber" ||
    getSchemaTypeName s = "ZodBoolean"

/-- Every top-level field of the shape resolves to a primitive kind. -/
def allPrimFields : SchemaFields → Bool
  | .nil => true
  | .cons _ s rest => primKind s && allPrimFields rest

/-- Every entry of the list has a nullish (null or undefined) value. -/
def allNullish : EEntries → Bool
  | .nil => true
  | .cons _ v rest => isNullish v && allNullish rest

/-- The top-level tag scan of the decoder on an input: the match list
the exec loop produces on the trimmed text. -/
def topScanMatches (s : String) : List (List Char × List Char) :=
  collectMatchesF ((trimChars s.data).length + 1) (trimChars s.data)

/-- C1 failing input: an agent configuration whose output schema has a
top-level array field (the configuration of the repository's own test
'should throw error for arrays in output schema'). -/
def c1BadConfig : AgentConfigM :=
  { llm := "gpt-4o"
    inputFormat := .cons "message" .string .nil
    outputFormat := .cons "responses" (.array .string) .nil }

/-- C1 nested variant: output schema with an array at path data.items
(the configuration of the repository's test 'should throw error for
nested arrays in output schema'). -/
def c1NestedConfig : AgentConfigM :=
  { llm := "gpt-4o"
    inputFormat := .cons "message" .string .nil
    outputFormat :=
      .cons "data" (.object (.cons "items" (.array .string) .nil)) .nil }

/-- C4 counterexample schema: array-free, but with a nested object
field that has a required number field. -/
def c4Shape : SchemaFields :=
  .cons "meta" (.object (.cons "count" .number .nil)) .nil

/-- C4 witness schema: primitive-kind fields only. -/
def c4PrimShape : SchemaFields :=
  .cons "answer" .string (.cons "count" (.optional .number) .nil)

/-- C9 witness fixtures: a server whose discovery fails and one whose
single tool succeeds. -/
def wServerA : MCPServerM := { name := "A", description := "down", url := "uA" }

/-- C9 witness fixture: the surviving server. -/
def wServerB : MCPServerM := { name := "B", description := "up", url := "uB" }

/-- C9 witness fixture: the one discovered tool. -/
def wTool : MCPToolM := { name := "t1", description := "d" }

/-- C9 witness discovery oracle: times out on server A. -/
def wD (s : MCPServerM) : Except String (List MCPToolM) :=
  if s.name = "A" then .error "timeout" else .ok [wTool]

/-- C9 witness selection oracle: keep all discovered tools. -/
def wS (_ : MCPServerM) (ts : List MCPToolM) : List MCPToolM := ts

/-- C9 witness parameter-generation oracle. -/
def wG (_ : MCPServerM) (_ : MCPToolM) : Except String XVal := .ok (.obj [])

/-- C9 witness invocation oracle. -/
def wI (_ : MCPServerM) (_ : MCPToolM) (_ : XVal) : Except String XVal :=
  .ok (.str "r")

/-! ### Decode totality: the fuel (length + 1) always suffices -/

theorem dropWhile_len_le (p : Char → Bool) (l : List Char) :
    (l.dropWhile p).length ≤ l.length := by
  induction l with
  | nil => simp [List.dropWhile]
  | cons c tl ih =>
    by_cases h : p c = true
    · simp [List.dropWhile, h]; omega
    · simp [List.dropWhile, h]

theorem takeWhile_len_le (p : Char → Bool) (l : List Char) :
    (l.takeWhile p).length ≤ l.length := by
  induction l with
  | nil => simp [List.takeWhile]
  | cons c tl ih =>
    by_cases h : p c = true
    · simp [List.takeWhile, h]; omega
    · simp [List.takeWhile, h]

theorem trimChars_len_le (l : List Char) : (trimChars l).length ≤ l.length := by
  unfold trimChars
  have h1 := dropWhile_len_le isJsSpace l
  have h2 := dropWhile_len_le isJsSpace (l.dropWhile isJsSpace).reverse
  simp only [List.length_reverse] at *
  omega

theorem tryTags_len {l2 run1 : List Char} :
    ∀ n t c r, tryTags l2 run1 n = some (t, c, r) →
      c.length ≤ l2.length ∧ r.length ≤ l2.length := by
  intro n
  induction n with
  | zero => intro t c r h; simp [tryTags] at h
  | succ n ih =>
    intro t c r h
    simp only [tryTags] at h
    split at h
    · simp only [Option.some.injEq, Prod.mk.injEq] at h
      obtain ⟨-, hc, hr⟩ := h
      constructor
      · rw [← hc]; simp only [List.length_take]; exact Nat.min_le_right _ _
      · rw [← hr]; simp
    · exact ih t c r h

theorem matchAt_len {l t c r : List Char} (h : matchAt l = some (t, c, r)) :
    c.length < l.length ∧ r.length < l.length := by
  cases l with
  | nil => simp [matchAt] at h
  | cons ch l1 =>
    unfold matchAt at h
    by_cases hch : ch = '<'
    · simp only [hch, if_pos rfl] at h
      by_cases hrun : (l1.takeWhile isNameChar).isEmpty
      · simp [hrun] at h
      · simp only [hrun, Bool.false_eq_true, if_false] at h
        set pre := l1.takeWhile (fun c => !(c = '>')) with hpre
        by_cases hp : pre.length = l1.length
        · simp [hp] at h
        · simp only [hp, if_false] at h
          have hple : pre.length ≤ l1.length := takeWhile_len_le _ l1
          have hl2 : (l1.drop (pre.length + 1)).length ≤ l1.length - 1 := by
            simp [List.length_drop]; omega
          have := tryTags_len _ t c r h
          simp only [List.length_cons]
          omega
    · simp [hch] at h

theorem findMatch_len {l t c r : List Char} (h : findMatch l = some (t, c, r)) :
    c.length < l.length ∧ r.length < l.length := by
  induction l with
  | nil => simp [findMatch] at h
  | cons a tl ih =>
    unfold findMatch at h
    cases hm : matchAt (a :: tl) with
    | some x =>
      rw [hm] at h
      cases h
      exact matchAt_len hm
    | none =>
      rw [hm] at h
      have := ih h
      simp only [List.length_cons]
      omega

theorem collect_mem_len :
    ∀ (f : Nat) (l : List Char) (t c : List Char),
      (t, c) ∈ collectMatchesF f l → c.length < l.length := by
  intro f
  induction f with
  | zero => intro l t c h; simp [collectMatchesF] at h
  | succ f ih =>
    intro l t c h
    unfold collectMatchesF at h
    cases hm : findMatch l with
    | none => rw [hm] at h; simp at h
    | some x =>
      obtain ⟨t0, c0, rest⟩ := x
      rw [hm] at h
      rcases List.mem_cons.mp h with heq | hmem
      · cases heq
        exact (findMatch_len hm).1
      · have h1 := ih rest t c hmem
        have h2 := (findMatch_len hm).2
        omega

theorem buildEntries_isSome {g : List Char → Option XVal}
    (ms : List (List Char × List Char))
    (hg : ∀ t c, (t, c) ∈ ms → ((trimChars c).any (fun ch => ch = '<')) = true →
      (g c).isSome) :
    ∀ acc, (buildEntriesWith g ms acc).isSome := by
  induction ms with
  | nil => intro acc; simp [buildEntriesWith]
  | cons p rest ih =>
    intro acc
    obtain ⟨t, c⟩ := p
    unfold buildEntriesWith
    by_cases hc : ((trimChars c).any (fun ch => ch = '<')) = true
    · simp only [hc, if_pos rfl]
      cases hgc : g c with
      | none =>
        have := hg t c (List.mem_cons_self _ _) hc
        rw [hgc] at this
        simp at this
      | some v =>
        exact ih (fun t' c' hm hlt => hg t' c' (List.mem_cons_of_mem _ hm) hlt) _
    · simp only [hc]
      simp only [Bool.not_eq_true] at hc
      simp only [hc, Bool.false_eq_true, if_false]
      exact ih (fun t' c' hm hlt => hg t' c' (List.mem_cons_of_mem _ hm) hlt) _

theorem parseElementF_isSome :
    ∀ (f : Nat) (l : List Char), l.length < f → (parseElementF f l).isSome := by
  intro f
  induction f with
  | zero => intro l h; omega
  | succ f ih =>
    intro l hl
    simp only [parseElementF]
    split
    · rfl
    · split
      · rfl
      · rename_i m ms hms
        have hsome : (buildEntriesWith (parseElementF f) (m :: ms) []).isSome := by
          apply buildEntries_isSome
          intro t c hm _
          apply ih
          have h1 : c.length < (trimChars l).length := by
            apply collect_mem_len ((trimChars l).length + 1) (trimChars l) t c
            rw [hms]; exact hm
          have h2 := trimChars_len_le l
          omega
        obtain ⟨v, hv⟩ := Option.isSome_iff_exists.mp hsome
        rw [hv]
        rfl

theorem xmlToObjOpt_isSome (s : String) : (xmlToObjOpt s).isSome :=
  parseElementF_isSome _ _ (Nat.lt_succ_self _)

/-! ### Claim C1 -/

/-- Claim C1 (code bug): the claim — and the repository's own tests —
say that constructing an agent whose output schema contains an array
field (at any depth) throws, reporting the dotted path of the first such
field.  The constructor of the source snapshot (lines 356-358) stores
the configuration without inspecting any schema, so construction
succeeds on the failing inputs of those tests; the spec-modelled walk
findArrayPath shows the paths ("responses", "data.items") that the
claimed check would report. -/
theorem constructor_skips_array_validation :
    constructAgent c1BadConfig = { config := c1BadConfig }
    ∧ constructAgent c1NestedConfig = { config := c1NestedConfig }
    ∧ findArrayPath c1BadConfig.outputFormat = some "responses"
    ∧ findArrayPath c1NestedConfig.outputFormat = some "data.items" :=
  ⟨rfl, rfl, rfl, rfl⟩

/-! ### Claim C2 -/

/-- Claim C2 counterexample: decoding the reply
"no tags here at all" yields the plain string itself — not the claimed
tree with the prose under a literal response key.  There is no salvage
path in xmlToObj: with zero matches it returns the (trimmed) content
as-is. -/
theorem decode_untagged_not_wrapped :
    xmlToObj "no tags here at all" = .str "no tags here at all"
    ∧ xmlToObj "no tags here at all" ≠ .obj [("response", .str "no tags here at all")] := by
  refine ⟨rfl, ?_⟩
  intro h
  rw [show xmlToObj "no tags here at all" = .str "no tags here at all" from rfl] at h
  exact XVal.noConfusion h

/-- Claim C2 as amended: when the top-level tag scan finds zero matches,
the decoder returns the trimmed content itself as a plain string value —
it performs no salvage substring extraction, no split on the tag
delimiter, and no wrapping under a response key; in particular the empty
reply decodes to the empty string. -/
theorem decode_no_match_returns_trimmed_text :
    (∀ s : String, topScanMatches s = [] → xmlToObj s = .str (jsTrim s))
    ∧ xmlToObj "" = .str "" := by
  constructor
  · intro s h
    unfold topScanMatches at h
    unfold xmlToObj xmlToObjOpt jsTrim
    simp only [parseElementF]
    split
    · rfl
    · rw [h]
      rfl
  · rfl

/-- Witness for the amended C2 theorem at a concrete input containing a
bare angle bracket (so the scan runs and finds nothing). -/
theorem decode_no_match_returns_trimmed_text_witness :
    topScanMatches "i saw a < b" = []
    ∧ xmlToObj "i saw a < b" = .str (jsTrim "i saw a < b") :=
  ⟨rfl, decode_no_match_returns_trimmed_text.1 "i saw a < b" rfl⟩

/-! ### Claim C3 -/

/-- Claim C3 counterexample: on a selection reply from which no names
list can be obtained, server selection returns the empty list — not the
full candidate list — and tool selection also returns the empty list —
not the first candidate. -/
theorem unparsable_selection_not_full_not_first :
    selectRelevantServers "garbage reply"
      [{ name := "alpha", description := "da", url := "ua" },
       { name := "beta", description := "db", url := "ub" }] = []
    ∧ selectRelevantTools "garbage reply"
      [{ name := "t1", description := "d1" }, { name := "t2", description := "d2" }] = []
    ∧ ([] : List MCPServerM) ≠
      [{ name := "alpha", description := "da", url := "ua" },
       { name := "beta", description := "db", url := "ub" }]
    ∧ ([] : List MCPToolM) ≠ [{ name := "t1", description := "d1" }] := by
  refine ⟨rfl, rfl, ?_, ?_⟩ <;> exact fun h => List.noConfusion h

/-- Claim C3 as amended: when the expected names list cannot be
obtained from the decoded reply (the lookup is absent or falsy, so the
source's || [] default applies), both server selection and tool
selection filter against the empty list and return no candidates; the
all-candidates and first-tool fallbacks live in catch handlers that the
total decode-and-lookup path never reaches. -/
theorem selection_no_names_selects_none :
    ∀ (reply : String) (servers : List MCPServerM) (tools : List MCPToolM),
      selectionNames reply "relevant_servers" "server_names" = none →
      selectionNames reply "selected_tools" "tool_names" = none →
      selectRelevantServers reply servers = []
      ∧ selectRelevantTools reply tools = [] := by
  intro reply servers tools hs ht
  constructor
  · unfold selectRelevantServers
    rw [hs]
    simp
  · unfold selectRelevantTools
    rw [ht]
    simp

/-- Witness for the amended C3 theorem at a concrete unparsable reply. -/
theorem selection_no_names_selects_none_witness :
    selectRelevantServers "garbage text" [{ name := "alpha", description := "d", url := "u" }] = []
    ∧ selectRelevantTools "garbage text" [{ name := "t1", description := "d" }] = [] :=
  selection_no_names_selects_none "garbage text"
    [{ name := "alpha", description := "d", url := "u" }]
    [{ name := "t1", description := "d" }] rfl rfl

/-! ### Claim C6 -/

/-- Claim C6: decode is total — for every input text the parser returns
a result within its fuel (no exception path exists), and in particular
the empty string, plain prose without tags, and well-formed nested tags
all decode. -/
theorem decode_total :
    (∀ s : String, (xmlToObjOpt s).isSome)
    ∧ xmlToObj "" = .str ""
    ∧ xmlToObj "plain prose with no tags" = .str "plain prose with no tags"
    ∧ xmlToObj "<a><b>hi</b></a>" = .obj [("a", .obj [("b", .str "hi")])] :=
  ⟨xmlToObjOpt_isSome, rfl, rfl, rfl⟩

/-! ### Claim C7 -/

/-- The unwrap loop never stops on a wrapper. -/
theorem resolveBase_no_wrapper :
    ∀ (fs i : FieldSchema),
      resolveBase fs ≠ .optional i ∧ resolveBase fs ≠ .nullable i
  | .optional j, i => resolveBase_no_wrapper j i
  | .nullable j, i => resolveBase_no_wrapper j i
  | .string, _ =>
    ⟨fun h => FieldSchema.noConfusion h, fun h => FieldSchema.noConfusion h⟩
  | .number, _ =>
    ⟨fun h => FieldSchema.noConfusion h, fun h => FieldSchema.noConfusion h⟩
  | .boolean, _ =>
    ⟨fun h => FieldSchema.noConfusion h, fun h => FieldSchema.noConfusion h⟩
  | .enumeration _, _ =>
    ⟨fun h => FieldSchema.noConfusion h, fun h => FieldSchema.noConfusion h⟩
  | .array _, _ =>
    ⟨fun h => FieldSchema.noConfusion h, fun h => FieldSchema.noConfusion h⟩
  | .object _, _ =>
    ⟨fun h => FieldSchema.noConfusion h, fun h => FieldSchema.noConfusion h⟩

/-- Claim C7: convertValue implements exactly the per-kind rule of the
spec, with the kind resolved by unwrapping optional/nullable wrappers:
number-kind strips to digits, dot and minus and parses (keeping the
original text when the parse is NaN), boolean-kind is a case-insensitive
comparison with "true", string-kind (and any other kind, via the default
case) is trimmed; as a total Lean function it throws for no input. -/
theorem convertValue_matches_fieldkind_rule :
    ∀ (value : String) (fs : FieldSchema),
      convertValue value (some fs) = convertValueSpec value fs := by
  intro value fs
  simp only [convertValue, convertValueSpec]
  cases hb : resolveBase fs <;>
    first
      | rfl
      | exact absurd hb ((resolveBase_no_wrapper fs _).1)
      | exact absurd hb ((resolveBase_no_wrapper fs _).2)

/-! ### Claim C4 -/

/-- Nullable validation accepts whatever its inner schema accepts. -/
theorem nullable_valid (i : FieldSchema) (v : XVal)
    (h : validateSchema i v = true) : validateSchema (.nullable i) v = true := by
  cases v <;> first | rfl | exact h

/-- A fallback value for a field whose kind resolves to string, number
or boolean validates against that field's schema. -/
theorem prim_valid :
    ∀ (s : FieldSchema) (k inp : String), primKind s = true →
      validateSchema s (fallbackFieldValue k s inp) = true
  | .string, k, inp, _ => by
    unfold fallbackFieldValue
    simp only [getSchemaTypeName]
    split
    · split
      · rfl
      · split <;> rfl
    · rename_i hfalse
      exact absurd trivial hfalse
  | .number, _, _, _ => rfl
  | .boolean, _, _, _ => rfl
  | .optional i, k, inp, h => prim_valid i k inp h
  | .nullable i, k, inp, h => nullable_valid i _ (prim_valid i k inp h)
  | .enumeration _, _, _, h => Bool.noConfusion h
  | .array _, _, _, h => Bool.noConfusion h
  | .object _, _, _, h => Bool.noConfusion h

/-- Field checks ignore a leading binding whose key does not occur in
the shape. -/
theorem validateFields_skip_head :
    ∀ (rest : SchemaFields) (k : String) (v : XVal) (m : List (String × XVal)),
      keyMem k rest = false →
      validateFields rest ((k, v) :: m) = validateFields rest m
  | .nil, _, _, _, _ => rfl
  | .cons k' s' r', k, v, m, h => by
    simp only [keyMem, Bool.or_eq_false_iff] at h
    obtain ⟨h1, h2⟩ := h
    have hne : ¬ (k = k') := fun he => by
      rw [he] at h1
      simp at h1
    unfold validateFields
    have hl : lookupEntry ((k, v) :: m) k' = lookupEntry m k' := by
      simp only [lookupEntry]
      rw [if_neg hne]
    rw [hl, validateFields_skip_head r' k v m h2]

/-- The wholesale fallback for a shape of primitive-kind fields with
distinct names passes all its field checks. -/
theorem fallback_valid_helper :
    ∀ (shape : SchemaFields) (inp : String),
      nodupKeys shape = true → allPrimFields shape = true →
      validateFields shape (createFallbackFields shape inp) = true
  | .nil, _, _, _ => rfl
  | .cons k s rest, inp, hn, hp => by
    simp only [nodupKeys, Bool.and_eq_true, Bool.not_eq_true'] at hn
    simp only [allPrimFields, Bool.and_eq_true] at hp
    obtain ⟨hk, hn'⟩ := hn
    obtain ⟨hps, hp'⟩ := hp
    unfold createFallbackFields validateFields
    rw [validateFields_skip_head rest k _ _ hk]
    have hl : lookupEntry ((k, fallbackFieldValue k s inp) :: createFallbackFields rest inp) k
        = some (fallbackFieldValue k s inp) := by
      simp [lookupEntry]
    rw [hl]
    show (validateSchema s (fallbackFieldValue k s inp) &&
      validateFields rest (createFallbackFields rest inp)) = true
    rw [prim_valid s k inp hps, fallback_valid_helper rest inp hn' hp']
    rfl

/-- Claim C4 counterexample: an array-free output schema (a nested
object with a required number field) whose wholesale fallback — which
sets every object-kinded field to the empty object — fails that very
schema's validation. -/
theorem fallback_fails_nested_object_schema :
    arrayFreeFields c4Shape = true
    ∧ validateSchema (.object c4Shape) (createFallbackResponse c4Shape "some input") = false :=
  ⟨rfl, rfl⟩

/-- Claim C4 as amended: the wholesale fallback object passes the output
schema's validation for every output schema whose (distinctly named)
fields all resolve through optional/nullable wrappers to string, number
or boolean kind — the nested-object counterexample forces the exclusion
of object-kinded (and enum-kinded) fields. -/
theorem fallback_conformance_for_primitive_schemas :
    ∀ (shape : SchemaFields) (inputStr : String),
      nodupKeys shape = true → allPrimFields shape = true →
      validateSchema (.object shape) (createFallbackResponse shape inputStr) = true := by
  intro shape inputStr hn hp
  exact fallback_valid_helper shape inputStr hn hp

/-- Witness for the amended C4 theorem at a concrete primitive shape. -/
theorem fallback_conformance_witness :
    nodupKeys c4PrimShape = true
    ∧ allPrimFields c4PrimShape = true
    ∧ validateSchema (.object c4PrimShape) (createFallbackResponse c4PrimShape "inp") = true :=
  ⟨rfl, rfl, fallback_conformance_for_primitive_schemas c4PrimShape "inp" rfl rfl⟩

/-! ### Claim C5 -/

/-- The source's assembly if-chain computes exactly the claim's
cascading lookup. -/
theorem extract_eq_cascade (key : String) (schema : FieldSchema)
    (parsed : XVal) (response : String) :
    extractFieldValue key schema parsed response =
      cascadeLookupSpec key schema parsed response := by
  simp only [extractFieldValue, cascadeLookupSpec]
  cases getProp parsed key with
  | some v => rfl
  | none =>
    cases hb : (match getProp parsed "response" with
      | some (.obj m) => lookupEntry m key
      | _ => none) with
    | some v => rfl
    | none =>
      cases firstVal parsed with
      | none => rfl
      | some v =>
        cases v with
        | obj m =>
          cases lookupEntry m key with
          | some w => rfl
          | none => rfl
        | null => rfl
        | str s => rfl
        | num s => rfl
        | bool b => rfl
        | arr xs => rfl

/-- Every declared output field receives, in the assembled object, the
value of the source's per-field chain. -/
theorem assembleResponse_lookup :
    ∀ (shape : SchemaFields) (parsed : XVal) (response : String)
      (key : String) (schema : FieldSchema),
      lookupFields shape key = some schema →
      lookupEntry (assembleResponse shape parsed response) key =
        some (extractFieldValue key schema parsed response)
  | .nil, _, _, _, _, h => by simp [lookupFields] at h
  | .cons k s rest, parsed, response, key, schema, h => by
    by_cases hk : k = key
    · subst hk
      rw [lookupFields, if_pos rfl] at h
      injection h with h
      subst h
      rw [assembleResponse, lookupEntry, if_pos rfl]
    · rw [lookupFields, if_neg hk] at h
      rw [assembleResponse, lookupEntry, if_neg hk]
      exact assembleResponse_lookup rest parsed response key schema h

/-- Claim C5: for every declared output field the assembled object
contains a value (the lookup succeeds — never undefined), and that
value is resolved by the claimed cascade: direct key match, then the
key under a literal response wrapper, then the key under the first
top-level key, then the per-field fallback synthesizer. -/
theorem assembled_fields_follow_cascade :
    ∀ (shape : SchemaFields) (parsed : XVal) (response : String)
      (key : String) (schema : FieldSchema),
      lookupFields shape key = some schema →
      lookupEntry (assembleResponse shape parsed response) key =
        some (cascadeLookupSpec key schema parsed response) := by
  intro shape parsed response key schema h
  rw [← extract_eq_cascade]
  exact assembleResponse_lookup shape parsed response key schema h

/-- Witness for the C5 theorem: a one-field schema and a decoded tree
that misses the field everywhere, so the cascade bottoms out in the
fallback synthesizer. -/
theorem assembled_fields_follow_cascade_witness :
    lookupFields (SchemaFields.cons "answer" .string .nil) "answer" = some .string
    ∧ lookupEntry
        (assembleResponse (SchemaFields.cons "answer" .string .nil)
          (.obj [("other", .str "x")]) "raw") "answer" =
      some (cascadeLookupSpec "answer" .string (.obj [("other", .str "x")]) "raw")
    ∧ cascadeLookupSpec "answer" .string (.obj [("other", .str "x")]) "raw" =
      .str "Generated content" :=
  ⟨rfl,
   assembled_fields_follow_cascade (SchemaFields.cons "answer" .string .nil)
     (.obj [("other", .str "x")]) "raw" "answer" .string rfl,
   rfl⟩

/-! ### Claim C8 -/

/-- Claim C8 counterexample: a scalar-valued entry inside an object is
tagged with its raw key — here the space-containing key survives into
the tag text, which is not its sanitized form. -/
theorem encode_raw_key_for_scalar_entries :
    objToXml (.vObj (.cons "a b" (.vStr "x") .nil)) none = "<a b>x</a b>"
    ∧ sanitizeTagName "a b" = "a_b"
    ∧ ("<a b>x</a b>" : String) ≠
      "<" ++ sanitizeTagName "a b" ++ ">" ++ "x" ++ "</" ++ sanitizeTagName "a b" ++ ">" :=
  ⟨rfl, rfl, by decide⟩

/-- Every character the first replace produces is in [A-Za-z0-9_]. -/
theorem map_all_class :
    ∀ l : List Char,
      ((l.map (fun c => if c.isAlpha || c.isDigit || c = '_' then c else '_')).all
        (fun c => c.isAlpha || c.isDigit || c = '_')) = true := by
  intro l
  induction l with
  | nil => rfl
  | cons c cs ih =>
    simp only [List.map_cons, List.all_cons, ih, Bool.and_true]
    by_cases h : (c.isAlpha || c.isDigit || c = '_') = true
    · rw [if_pos h]; exact h
    · rw [if_neg h]; rfl

/-- The first replace preserves whether the first character is a
letter. -/
theorem mapChar_isAlpha (c : Char) :
    ((if c.isAlpha || c.isDigit || c = '_' then c else '_').isAlpha) = c.isAlpha := by
  by_cases h : (c.isAlpha || c.isDigit || c = '_') = true
  · rw [if_pos h]
  · rw [if_neg h]
    cases ha : c.isAlpha with
    | false => rfl
    | true => exact absurd (by rw [ha]; rfl) h

/-- Claim C8 as amended: sanitizeTagName always lands in [A-Za-z0-9_]
and adds the literal tag_ prefix exactly when the first character is not
a letter, and every tag produced through wrapTag (top-level wrappers,
item tags, and object- or array-valued entries, which recurse with their
key as parent) uses the sanitized name — but scalar-valued entries
inside objects splice their raw key into the tag text unsanitized. -/
theorem encode_tag_sanitization_rule :
    (∀ name : String, (sanitizeTagName name).data.all
        (fun c => c.isAlpha || c.isDigit || c = '_') = true)
    ∧ (∀ (name : String) (c : Char) (cs : List Char), name.data = c :: cs →
        sanitizeTagName name =
          if c.isAlpha then mapTagChars name else "tag_" ++ mapTagChars name)
    ∧ (∀ t c : String, wrapTag t c =
        "<" ++ sanitizeTagName t ++ ">" ++ c ++ "</" ++ sanitizeTagName t ++ ">")
    ∧ (∀ (k s : String) (rest : EEntries),
        encodeEntries (.cons k (.vStr s) rest) =
          "<" ++ k ++ ">" ++ s ++ "</" ++ k ++ ">" ++ encodeEntries rest) := by
  refine ⟨?_, ?_, fun t c => rfl, fun k s rest => rfl⟩
  · intro name
    have hall : (mapTagChars name).data.all
        (fun c => c.isAlpha || c.isDigit || c = '_') = true :=
      map_all_class name.data
    rw [sanitizeTagName]
    split
    · exact hall
    · split
      · exact hall
      · show (("tag_").data ++ (mapTagChars name).data).all
          (fun c => c.isAlpha || c.isDigit || c = '_') = true
        rw [List.all_append, hall]
        rfl
  · intro name c cs hd
    have hmd : (mapTagChars name).data =
        (if c.isAlpha || c.isDigit || c = '_' then c else '_') ::
          cs.map (fun ch => if ch.isAlpha || ch.isDigit || ch = '_' then ch else '_') := by
      show name.data.map _ = _
      rw [hd, List.map_cons]
    simp only [sanitizeTagName, hmd]
    rw [mapChar_isAlpha]

/-- Witness for the amended C8 theorem on a key starting with a digit. -/
theorem encode_tag_sanitization_rule_witness :
    sanitizeTagName "2 b" = (if ('2').isAlpha then mapTagChars "2 b" else "tag_" ++ mapTagChars "2 b")
    ∧ (sanitizeTagName "2 b").data.all (fun c => c.isAlpha || c.isDigit || c = '_') = true :=
  ⟨encode_tag_sanitization_rule.2.1 "2 b" '2' [' ', 'b'] rfl,
   encode_tag_sanitization_rule.1 "2 b"⟩

/-! ### Claim C10 -/

/-- The entry filter is idempotent. -/
theorem dropNull_idem :
    ∀ es : EEntries, dropNullEntries (dropNullEntries es) = dropNullEntries es
  | .nil => rfl
  | .cons k v rest => by
    by_cases h : isNullish v = true
    · have h1 : dropNullEntries (.cons k v rest) = dropNullEntries rest := by
        rw [dropNullEntries, if_pos h]
      rw [h1, dropNull_idem rest]
    · have h1 : dropNullEntries (.cons k v rest) = .cons k v (dropNullEntries rest) := by
        rw [dropNullEntries, if_neg h]
      rw [h1, dropNullEntries, if_neg h, dropNull_idem rest]

/-- Encoding the filtered entries is the same as encoding all entries
(the loop already skips nullish values). -/
theorem encodeEntries_dropNull :
    ∀ es : EEntries, encodeEntries (dropNullEntries es) = encodeEntries es
  | .nil => rfl
  | .cons k v rest => by
    by_cases h : isNullish v = true
    · have h1 : dropNullEntries (.cons k v rest) = dropNullEntries rest := by
        rw [dropNullEntries, if_pos h]
      rw [h1, encodeEntries_dropNull rest]
      have h2 : encodeEntries (.cons k v rest) = "" ++ encodeEntries rest := by
        rw [encodeEntries, if_pos h]
      rw [h2]
      rfl
    · have h1 : dropNullEntries (.cons k v rest) = .cons k v (dropNullEntries rest) := by
        rw [dropNullEntries, if_neg h]
      rw [h1, encodeEntries, encodeEntries, encodeEntries_dropNull rest]

/-- Filtering an all-nullish entry list leaves nothing. -/
theorem allNullish_dropNull :
    ∀ es : EEntries, allNullish es = true → dropNullEntries es = .nil
  | .nil, _ => rfl
  | .cons k v rest, h => by
    simp only [allNullish, Bool.and_eq_true] at h
    rw [dropNullEntries, if_pos h.1]
    exact allNullish_dropNull rest h.2

/-- Claim C10: the encoder drops entries whose value is null or
undefined — encoding an object equals encoding its filtered entries —
and an object all of whose entries are nullish encodes as a single empty
tag, named by its key (when truthy) or by the default name empty at top
level. -/
theorem encode_drops_nullish_entries :
    (∀ (es : EEntries) (pk : Option String),
      objToXml (.vObj es) pk = objToXml (.vObj (dropNullEntries es)) pk)
    ∧ (∀ (es : EEntries) (k : String), allNullish es = true → ¬ (k = "") →
      objToXml (.vObj es) (some k) = wrapTag k "")
    ∧ (∀ es : EEntries, allNullish es = true →
      objToXml (.vObj es) none = wrapTag "empty" "") := by
  refine ⟨?_, ?_, ?_⟩
  · intro es pk
    simp only [objToXml]
    rw [dropNull_idem, encodeEntries_dropNull]
  · intro es k hall hk
    simp only [objToXml]
    rw [allNullish_dropNull es hall]
    rw [if_pos (show isNilEntries EEntries.nil = true from rfl)]
    simp only [orDefault]
    rw [if_neg hk]
  · intro es hall
    simp only [objToXml]
    rw [allNullish_dropNull es hall]
    rw [if_pos (show isNilEntries EEntries.nil = true from rfl)]
    rfl

/-- Witness for the C10 theorem: a mixed entry list for the filter
equation and an all-nullish list for the empty-tag equations. -/
theorem encode_drops_nullish_entries_witness :
    objToXml (.vObj (.cons "a" .vNull (.cons "b" (.vStr "x") .nil))) none =
      objToXml (.vObj (dropNullEntries (.cons "a" .vNull (.cons "b" (.vStr "x") .nil)))) none
    ∧ objToXml (.vObj (.cons "a" .vNull (.cons "c" .vUndef .nil))) (some "k") =
      wrapTag "k" ""
    ∧ objToXml (.vObj (.cons "a" .vNull .nil)) none = wrapTag "empty" "" :=
  ⟨encode_drops_nullish_entries.1 _ _,
   encode_drops_nullish_entries.2.1 _ "k" rfl (by decide),
   encode_drops_nullish_entries.2.2 _ rfl⟩

/-! ### Claim C9 -/

/-- Membership after a JS-style keyed assignment: an element is either
the new binding or was already present. -/
theorem setProp_mem :
    ∀ (l : List (String × XVal)) (k : String) (v : XVal) (x : String × XVal),
      x ∈ setProp l k v → x = (k, v) ∨ x ∈ l
  | [], k, v, x, h => by
    simp only [setProp] at h
    rcases List.mem_singleton.mp h with h
    exact Or.inl h
  | (k', w) :: rest, k, v, x, h => by
    simp only [setProp] at h
    split at h
    · rcases List.mem_cons.mp h with h1 | h1
      · exact Or.inl h1
      · exact Or.inr (List.mem_cons_of_mem _ h1)
    · rcases List.mem_cons.mp h with h1 | h1
      · exact Or.inr (h1 ▸ List.mem_cons_self _ _)
      · rcases setProp_mem rest k v x h1 with h2 | h2
        · exact Or.inl h2
        · exact Or.inr (List.mem_cons_of_mem _ h2)

/-- Invariant preservation through the per-tool loop: every entry of the
final mapping is either an initial entry or the recorded result of a
tool from the list whose parameter generation and invocation both
succeeded. -/
theorem invokeToolsFold_mem
    (G : MCPServerM → MCPToolM → Except String XVal)
    (I : MCPServerM → MCPToolM → XVal → Except String XVal)
    (server : MCPServerM) (P : String × XVal → Prop) :
    ∀ (ts : List MCPToolM) (acc : List (String × XVal)),
      (∀ x ∈ acc, P x) →
      (∀ t p r, t ∈ ts → G server t = .ok p → I server t p = .ok r →
        P (server.name ++ "." ++ t.name, r)) →
      ∀ x ∈ invokeToolsFold G I server acc ts, P x
  | [], acc, hacc, _, x, hx => hacc x hx
  | t :: rest, acc, hacc, hts, x, hx => by
    rw [invokeToolsFold] at hx
    cases hg : G server t with
    | error e =>
      simp only [hg] at hx
      exact invokeToolsFold_mem G I server P rest acc hacc
        (fun t' p r ht' => hts t' p r (List.mem_cons_of_mem _ ht')) x hx
    | ok p =>
      simp only [hg] at hx
      cases hi : I server t p with
      | error e =>
        simp only [hi] at hx
        exact invokeToolsFold_mem G I server P rest acc hacc
          (fun t' p' r ht' => hts t' p' r (List.mem_cons_of_mem _ ht')) x hx
      | ok r =>
        simp only [hi] at hx
        refine invokeToolsFold_mem G I server P rest _ ?_
          (fun t' p' r' ht' => hts t' p' r' (List.mem_cons_of_mem _ ht')) x hx
        intro y hy
        rcases setProp_mem _ _ _ y hy with h1 | h1
        · rw [h1]
          exact hts t p r (List.mem_cons_self _ _) hg hi
        · exact hacc y h1

/-- Invariant preservation through one server's processing. -/
theorem processServer_mem
    (D : MCPServerM → Except String (List MCPToolM))
    (S : MCPServerM → List MCPToolM → List MCPToolM)
    (G : MCPServerM → MCPToolM → Except String XVal)
    (I : MCPServerM → MCPToolM → XVal → Except String XVal)
    (P : String × XVal → Prop) (s : MCPServerM) (acc : List (String × XVal))
    (hacc : ∀ x ∈ acc, P x)
    (hs : ∀ t p r, t ∈ S s (discoverToolsM D s) → G s t = .ok p →
      I s t p = .ok r → P (s.name ++ "." ++ t.name, r)) :
    ∀ x ∈ processServer D S G I acc s, P x := by
  intro x hx
  rw [processServer] at hx
  split at hx
  · exact hacc x hx
  · exact invokeToolsFold_mem G I s P (S s (discoverToolsM D s)) acc hacc hs x hx

/-- Invariant preservation over the server fold. -/
theorem toolStage_fold_mem
    (servers : List MCPServerM)
    (D : MCPServerM → Except String (List MCPToolM))
    (S : MCPServerM → List MCPToolM → List MCPToolM)
    (G : MCPServerM → MCPToolM → Except String XVal)
    (I : MCPServerM → MCPToolM → XVal → Except String XVal)
    (P : String × XVal → Prop)
    (hP : ∀ s, s ∈ servers → ∀ t p r, t ∈ S s (discoverToolsM D s) →
      G s t = .ok p → I s t p = .ok r → P (s.name ++ "." ++ t.name, r)) :
    ∀ (ss : List MCPServerM), (∀ s ∈ ss, s ∈ servers) →
      ∀ (acc : List (String × XVal)), (∀ x ∈ acc, P x) →
      ∀ x ∈ List.foldl (processServer D S G I) acc ss, P x
  | [], _, acc, hacc, x, hx => hacc x hx
  | s :: rest, hss, acc, hacc, x, hx => by
    rw [List.foldl_cons] at hx
    refine toolStage_fold_mem servers D S G I P hP rest
      (fun s' hs' => hss s' (List.mem_cons_of_mem _ hs')) _ ?_ x hx
    exact processServer_mem D S G I P s acc hacc
      (hP s (hss s (List.mem_cons_self _ _)))

/-- Claim C9: during the tool stage, a failed discovery (or an empty
one) for one server contributes nothing and leaves the accumulated
results of the other servers untouched; a tool whose parameter
generation or invocation fails is skipped without aborting the loop
over the remaining tools; and every entry of the final results mapping
comes from a selected tool whose generation and invocation both
succeeded, stored under server.tool. -/
theorem tool_stage_degrades_per_tool :
    (∀ D S G I s acc e, D s = Except.error e → processServer D S G I acc s = acc)
    ∧ (∀ D S G I s acc, D s = Except.ok [] → processServer D S G I acc s = acc)
    ∧ (∀ G I s t rest acc e, G s t = Except.error e →
        invokeToolsFold G I s acc (t :: rest) = invokeToolsFold G I s acc rest)
    ∧ (∀ G I s t rest acc p e, G s t = Except.ok p → I s t p = Except.error e →
        invokeToolsFold G I s acc (t :: rest) = invokeToolsFold G I s acc rest)
    ∧ (∀ servers D S G I k v, (k, v) ∈ runToolStage servers D S G I →
        ∃ s t p, s ∈ servers ∧ t ∈ S s (discoverToolsM D s) ∧
          G s t = Except.ok p ∧ I s t p = Except.ok v ∧
          k = s.name ++ "." ++ t.name) := by
  refine ⟨?_, ?_, ?_, ?_, ?_⟩
  · intro D S G I s acc e h
    rw [processServer, discoverToolsM, h]
    rfl
  · intro D S G I s acc h
    rw [processServer, discoverToolsM, h]
    rfl
  · intro G I s t rest acc e h
    rw [invokeToolsFold, h]
  · intro G I s t rest acc p e hg hi
    rw [invokeToolsFold, hg]
    simp only [hi]
  · intro servers D S G I k v hmem
    refine toolStage_fold_mem servers D S G I
      (fun x => ∃ s t p, s ∈ servers ∧ t ∈ S s (discoverToolsM D s) ∧
        G s t = Except.ok p ∧ I s t p = Except.ok x.2 ∧
        x.1 = s.name ++ "." ++ t.name)
      ?_ servers (fun _ h => h) [] (fun _ h => absurd h (List.not_mem_nil _))
      (k, v) hmem
    intro s hsmem t p r ht hg hi
    exact ⟨s, t, p, hsmem, ht, hg, hi, rfl⟩

/-- Witness for the C9 theorem: a concrete two-server stage where the
first server's discovery times out and the second server's one tool
succeeds. -/
theorem tool_stage_degrades_per_tool_witness :
    processServer wD wS wG wI [] wServerA = []
    ∧ runToolStage [wServerA, wServerB] wD wS wG wI = [("B.t1", .str "r")] :=
  ⟨tool_stage_degrades_per_tool.1 wD wS wG wI wServerA [] "timeout" rfl, rfl⟩
